import Mathlib

/-!
Verification of the WhisperWrapper C binding
(Sources/WhisperWrapper/WhisperWrapper.c and its header).

The wrapper calls into the external whisper.cpp library.  The library is
modelled as an oracle: the return code of `whisper_full`, the segment count
reported by `whisper_full_n_segments`, and the per-segment C strings returned
by `whisper_full_get_segment_text` (`none` models a NULL pointer, a byte list
models the bytes of the string up to its terminator).  The caller-supplied
`result` buffer is modelled as a function from indices to bytes, threaded
through every byte store the wrapper performs; the list of stored indices is
recorded so that bounds properties can be stated.
-/

namespace WhisperWrapper

/-- Bytes of the `result` buffer; `0` is the C string terminator `NUL`. -/
abbrev Byte := Nat

/-- `enum whisper_sampling_strategy` from whisper.h (the two constructors
the header declares). -/
inductive whisper_sampling_strategy where
  | GREEDY
  | BEAM_SEARCH
deriving DecidableEq, Repr

/-- The fields of `struct whisper_full_params` that
`whisper_wrapper_full_transcribe` assigns (plus the sampling strategy the
defaults were requested with).  Float fields hold only the constants `0.0f`,
`1.0f`, `-1.0f` assigned by the wrapper, so they are modelled as rationals. -/
structure whisper_full_params where
  strategy : whisper_sampling_strategy
  language : String
  translate : Bool
  print_realtime : Bool
  print_progress : Bool
  print_timestamps : Bool
  print_special : Bool
  no_context : Bool
  single_segment : Bool
  suppress_blank : Bool
  suppress_nst : Bool
  temperature : Rat
  max_initial_ts : Rat
  length_penalty : Rat
  n_threads : Int

/-- The field of `struct whisper_context_params` that
`whisper_wrapper_init_from_file` assigns. -/
structure whisper_context_params where
  use_gpu : Bool

/-- Oracle for the external whisper.cpp library as seen by one call of
`whisper_wrapper_full_transcribe`:
`default_full_params` models `whisper_full_default_params`,
`fullRet` the return code of `whisper_full`,
`nSegments` the value of `whisper_full_n_segments`, and
`segText i` the string returned by `whisper_full_get_segment_text(ctx, i)`
(`none` for NULL, otherwise the bytes of the C string before its NUL). -/
structure WhisperLib where
  default_full_params : whisper_sampling_strategy → whisper_full_params
  fullRet : Int
  nSegments : Nat
  segText : Nat → Option (List Byte)

/-- Oracle for the library calls made by `whisper_wrapper_init_from_file`:
the struct returned by `whisper_context_default_params` and the behaviour
of `whisper_init_from_file_with_params` (contexts are opaque handles
modelled as `Nat`, `none` models a NULL pointer). -/
structure InitLib where
  defaultCParams : whisper_context_params
  initFromFile : whisper_context_params → Option Nat

/-- The arguments of `whisper_wrapper_full_transcribe` that its own control
flow inspects: whether each pointer argument is NULL, and the two int
arguments. -/
structure Args where
  ctxNull : Bool
  samplesNull : Bool
  resultNull : Bool
  n_samples : Int
  result_size : Int

/-- State of the caller's `result` buffer: its contents and the list of
indices the wrapper has stored to, in order. -/
structure BufState where
  buf : Nat → Byte
  written : List Nat

/-- One byte store `result[i] = v`. -/
def writeByte (s : BufState) (i : Nat) (v : Byte) : BufState :=
  ⟨fun j => if j = i then v else s.buf j, s.written ++ [i]⟩

/-- `strcpy(result + pos, text)`: stores the bytes of `text` at
`pos, pos+1, ...` followed by the NUL terminator. -/
def strcpy (pos : Nat) (text : List Byte) (s : BufState) : BufState :=
  match text with
  | [] => writeByte s pos 0
  | b :: bs => strcpy (pos + 1) bs (writeByte s pos b)

/-- The segment-concatenation loop of `whisper_wrapper_full_transcribe`
(lines 81-94 of WhisperWrapper.c).  `fuel` is the number of loop iterations
left (`n_segments - i`), `i` the current segment index, `pos` the current
`result_pos`.  Returns the final `result_pos` and buffer state; an early
return of the pair models the `break`. -/
def segLoop (lib : WhisperLib) (S : Nat) :
    Nat → Nat → Nat → BufState → Nat × BufState
  | 0, _, pos, s => (pos, s)
  | fuel + 1, i, pos, s =>
    match lib.segText i with
    | none => segLoop lib S fuel (i + 1) pos s
    | some text =>
      if pos + text.length + 1 < S then
        segLoop lib S fuel (i + 1) (pos + text.length) (strcpy pos text s)
      else
        (pos, s)

/-- The `whisper_full_params` value the wrapper passes to `whisper_full`:
defaults requested with `WHISPER_SAMPLING_GREEDY`, then the fixed field
assignments of lines 43-60 of WhisperWrapper.c. -/
def transcribe_wparams (lib : WhisperLib) : whisper_full_params :=
  let wparams := lib.default_full_params .GREEDY
  let n_threads : Int := 4
  let n_threads : Int := if n_threads > 8 then 8 else n_threads
  { wparams with
    language := "en"
    translate := false
    print_realtime := false
    print_progress := false
    print_timestamps := false
    print_special := false
    no_context := true
    single_segment := false
    suppress_blank := true
    suppress_nst := true
    temperature := 0
    max_initial_ts := 1
    length_penalty := -1
    n_threads := n_threads }

/-- Observable outcome of one call of `whisper_wrapper_full_transcribe`:
the returned int, the parameters passed to `whisper_full` (`none` when
`whisper_full` was never invoked), and the final state of the caller's
`result` buffer. -/
structure Outcome where
  ret : Int
  invoked : Option whisper_full_params
  buf : Nat → Byte
  written : List Nat

/-- `whisper_wrapper_full_transcribe` (WhisperWrapper.c lines 34-103).
`buf0` is the initial (arbitrary) contents of the caller's buffer. -/
def whisper_wrapper_full_transcribe (lib : WhisperLib) (a : Args)
    (buf0 : Nat → Byte) : Outcome :=
  if a.ctxNull || a.samplesNull || a.resultNull || decide (a.result_size ≤ 0) then
    ⟨-1, none, buf0, []⟩
  else
    let wparams := transcribe_wparams lib
    if lib.fullRet ≠ 0 then
      ⟨lib.fullRet, some wparams, buf0, []⟩
    else if lib.nSegments = 0 then
      let s := writeByte ⟨buf0, []⟩ 0 0
      ⟨0, some wparams, s.buf, s.written⟩
    else
      let S := a.result_size.toNat
      let r := segLoop lib S lib.nSegments 0 0 ⟨buf0, []⟩
      let s := writeByte r.2 r.1 0
      ⟨0, some wparams, s.buf, s.written⟩

/-- The `whisper_context_params` value `whisper_wrapper_init_from_file`
passes to the library: the defaults with `use_gpu` set (lines 15-16). -/
def init_cparams (dflt : whisper_context_params) : whisper_context_params :=
  { dflt with use_gpu := true }

/-- `whisper_wrapper_init_from_file` (WhisperWrapper.c lines 14-26). -/
def whisper_wrapper_init_from_file (lib : InitLib) : Option Nat :=
  match lib.initFromFile (init_cparams lib.defaultCParams) with
  | none => none
  | some ctx => some ctx

/-- The non-NULL segment texts among segments `i, i+1, ..., i+fuel-1`,
in segment order: the texts the loop would attempt to copy. -/
def segTextsFrom (lib : WhisperLib) : Nat → Nat → List (List Byte)
  | 0, _ => []
  | fuel + 1, i =>
    match lib.segText i with
    | none => segTextsFrom lib fuel (i + 1)
    | some text => text :: segTextsFrom lib fuel (i + 1)

/-- The non-NULL segment texts among the first `n` segments. -/
def segTexts (lib : WhisperLib) (n : Nat) : List (List Byte) :=
  segTextsFrom lib n 0

/-- Validation of `whisper_wrapper_full_transcribe`'s arguments passes
(line 35 of WhisperWrapper.c). -/
def argsValid (a : Args) : Prop :=
  a.ctxNull = false ∧ a.samplesNull = false ∧ a.resultNull = false ∧
    0 < a.result_size

instance (a : Args) : Decidable (argsValid a) := by
  unfold argsValid; infer_instance

/-- The library hands the wrapper genuine C strings: no interior NUL byte. -/
def libStringsWF (lib : WhisperLib) : Prop :=
  ∀ i t, lib.segText i = some t → ∀ b ∈ t, b ≠ 0

/-! ### Basic facts about buffer stores and `strcpy` -/

lemma writeByte_buf (s : BufState) (i : Nat) (v : Byte) (j : Nat) :
    (writeByte s i v).buf j = if j = i then v else s.buf j := rfl

lemma writeByte_written (s : BufState) (i : Nat) (v : Byte) :
    (writeByte s i v).written = s.written ++ [i] := rfl

lemma strcpy_written (text : List Byte) :
    ∀ (pos : Nat) (s : BufState) (j : Nat),
      j ∈ (strcpy pos text s).written →
      j ∈ s.written ∨ (pos ≤ j ∧ j ≤ pos + text.length) := by
  induction text with
  | nil =>
    intro pos s j hj
    simp only [strcpy, writeByte_written, List.mem_append, List.mem_singleton] at hj
    rcases hj with h | h
    · exact Or.inl h
    · exact Or.inr ⟨le_of_eq h.symm, by omega⟩
  | cons b bs ih =>
    intro pos s j hj
    rcases ih (pos + 1) (writeByte s pos b) j hj with h | h
    · simp only [writeByte_written, List.mem_append, List.mem_singleton] at h
      rcases h with h | h
      · exact Or.inl h
      · exact Or.inr ⟨le_of_eq h.symm, by omega⟩
    · exact Or.inr ⟨by omega, by simpa [Nat.add_comm, Nat.add_assoc, Nat.add_left_comm] using h.2⟩

lemma strcpy_buf_lt (text : List Byte) :
    ∀ (pos : Nat) (s : BufState) (j : Nat), j < pos →
      (strcpy pos text s).buf j = s.buf j := by
  induction text with
  | nil =>
    intro pos s j hj
    simp [strcpy, writeByte_buf, Nat.ne_of_lt hj]
  | cons b bs ih =>
    intro pos s j hj
    have := ih (pos + 1) (writeByte s pos b) j (by omega)
    rw [strcpy, this, writeByte_buf, if_neg (Nat.ne_of_lt hj)]

lemma strcpy_buf_mid (text : List Byte) :
    ∀ (pos : Nat) (s : BufState) (j : Nat), pos ≤ j → j < pos + text.length →
      (strcpy pos text s).buf j = text.getD (j - pos) 0 := by
  induction text with
  | nil => intro pos s j h1 h2; simp at h2; omega
  | cons b bs ih =>
    intro pos s j h1 h2
    rcases Nat.eq_or_lt_of_le h1 with h | h
    · subst h
      rw [strcpy, strcpy_buf_lt bs (pos + 1) _ pos (by omega), writeByte_buf,
        if_pos rfl]
      simp
    · have hst : j - pos = (j - (pos + 1)) + 1 := by omega
      rw [strcpy, ih (pos + 1) _ j (by omega) (by simp at h2; omega), hst]
      simp

lemma strcpy_buf_term (text : List Byte) :
    ∀ (pos : Nat) (s : BufState),
      (strcpy pos text s).buf (pos + text.length) = 0 := by
  induction text with
  | nil => intro pos s; simp [strcpy, writeByte_buf]
  | cons b bs ih =>
    intro pos s
    have := ih (pos + 1) (writeByte s pos b)
    rw [strcpy]
    have harith : pos + (b :: bs).length = (pos + 1) + bs.length := by
      simp; omega
    rw [harith]
    exact this

/-! ### Invariants of the segment-concatenation loop -/

lemma segLoop_pos_le (lib : WhisperLib) (S : Nat) :
    ∀ (fuel i pos : Nat) (s : BufState),
      pos ≤ (segLoop lib S fuel i pos s).1 := by
  intro fuel
  induction fuel with
  | zero => intro i pos s; exact le_refl _
  | succ n ih =>
    intro i pos s
    rw [segLoop]
    cases h : lib.segText i with
    | none => exact ih (i + 1) pos s
    | some t =>
      by_cases hg : pos + t.length + 1 < S
      · simp only [if_pos hg]
        have := ih (i + 1) (pos + t.length) (strcpy pos t s)
        omega
      · simp only [if_neg hg]; exact le_refl _

lemma segLoop_pos_lt (lib : WhisperLib) (S : Nat) :
    ∀ (fuel i pos : Nat) (s : BufState), pos < S →
      (segLoop lib S fuel i pos s).1 < S := by
  intro fuel
  induction fuel with
  | zero => intro i pos s h; exact h
  | succ n ih =>
    intro i pos s h
    rw [segLoop]
    cases hseg : lib.segText i with
    | none => exact ih (i + 1) pos s h
    | some t =>
      by_cases hg : pos + t.length + 1 < S
      · simp only [if_pos hg]
        exact ih (i + 1) (pos + t.length) (strcpy pos t s) (by omega)
      · simp only [if_neg hg]; exact h

lemma segLoop_written (lib : WhisperLib) (S : Nat) :
    ∀ (fuel i pos : Nat) (s : BufState) (j : Nat),
      j ∈ (segLoop lib S fuel i pos s).2.written →
      j ∈ s.written ∨ j < S := by
  intro fuel
  induction fuel with
  | zero => intro i pos s j hj; exact Or.inl hj
  | succ n ih =>
    intro i pos s j hj
    rw [segLoop] at hj
    cases hseg : lib.segText i with
    | none => simp only [hseg] at hj; exact ih (i + 1) pos s j hj
    | some t =>
      simp only [hseg] at hj
      by_cases hg : pos + t.length + 1 < S
      · rw [if_pos hg] at hj
        rcases ih (i + 1) (pos + t.length) (strcpy pos t s) j hj with h | h
        · rcases strcpy_written t pos s j h with h | h
          · exact Or.inl h
          · exact Or.inr (by omega)
        · exact Or.inr h
      · rw [if_neg hg] at hj; exact Or.inl hj

lemma segLoop_buf_lt (lib : WhisperLib) (S : Nat) :
    ∀ (fuel i pos : Nat) (s : BufState) (j : Nat), j < pos →
      (segLoop lib S fuel i pos s).2.buf j = s.buf j := by
  intro fuel
  induction fuel with
  | zero => intro i pos s j hj; rfl
  | succ n ih =>
    intro i pos s j hj
    rw [segLoop]
    cases hseg : lib.segText i with
    | none => exact ih (i + 1) pos s j hj
    | some t =>
      simp only []
      by_cases hg : pos + t.length + 1 < S
      · rw [if_pos hg, ih (i + 1) (pos + t.length) (strcpy pos t s) j (by omega)]
        exact strcpy_buf_lt t pos s j hj
      · rw [if_neg hg]

lemma segLoop_nonzero (lib : WhisperLib) (S : Nat) (hwf : libStringsWF lib) :
    ∀ (fuel i pos : Nat) (s : BufState) (j : Nat), pos ≤ j →
      j < (segLoop lib S fuel i pos s).1 →
      (segLoop lib S fuel i pos s).2.buf j ≠ 0 := by
  intro fuel
  induction fuel with
  | zero => intro i pos s j h1 h2; exact absurd h2 (by simp [segLoop]; omega)
  | succ n ih =>
    intro i pos s j h1 h2
    rw [segLoop] at h2 ⊢
    cases hseg : lib.segText i with
    | none => simp only [hseg] at h2; exact ih (i + 1) pos s j h1 h2
    | some t =>
      simp only [hseg] at h2
      simp only []
      by_cases hg : pos + t.length + 1 < S
      · rw [if_pos hg] at h2 ⊢
        by_cases hj : j < pos + t.length
        · rw [segLoop_buf_lt lib S n (i + 1) (pos + t.length) (strcpy pos t s) j hj,
            strcpy_buf_mid t pos s j h1 hj]
          have hlt : j - pos < t.length := by omega
          rw [List.getD_eq_getElem t 0 hlt]
          exact hwf i t hseg _ (List.getElem_mem hlt)
        · exact ih (i + 1) (pos + t.length) (strcpy pos t s) j (by omega) h2
      · rw [if_neg hg] at h2; omega

/-! ### Unfolding equations for the loop and for the segment-text lists -/

lemma segLoop_succ_none {lib : WhisperLib} {S i : Nat} (fuel pos : Nat)
    (s : BufState) (h : lib.segText i = none) :
    segLoop lib S (fuel + 1) i pos s = segLoop lib S fuel (i + 1) pos s := by
  simp only [segLoop, h]

lemma segLoop_succ_some_fit {lib : WhisperLib} {S i : Nat} {t : List Byte}
    (fuel pos : Nat) (s : BufState) (h : lib.segText i = some t)
    (hfit : pos + t.length + 1 < S) :
    segLoop lib S (fuel + 1) i pos s =
      segLoop lib S fuel (i + 1) (pos + t.length) (strcpy pos t s) := by
  simp only [segLoop, h, if_pos hfit]

lemma segLoop_succ_some_nofit {lib : WhisperLib} {S i : Nat} {t : List Byte}
    (fuel pos : Nat) (s : BufState) (h : lib.segText i = some t)
    (hfit : ¬ pos + t.length + 1 < S) :
    segLoop lib S (fuel + 1) i pos s = (pos, s) := by
  simp only [segLoop, h, if_neg hfit]

lemma segTextsFrom_succ_none {lib : WhisperLib} {i : Nat} (fuel : Nat)
    (h : lib.segText i = none) :
    segTextsFrom lib (fuel + 1) i = segTextsFrom lib fuel (i + 1) := by
  simp only [segTextsFrom, h]

lemma segTextsFrom_succ_some {lib : WhisperLib} {i : Nat} {t : List Byte}
    (fuel : Nat) (h : lib.segText i = some t) :
    segTextsFrom lib (fuel + 1) i = t :: segTextsFrom lib fuel (i + 1) := by
  simp only [segTextsFrom, h]

/-- When the whole remaining concatenation (plus one spare byte) fits, every
guard passes: the loop copies everything, advances `result_pos` by the total
length, leaves the buffer below `pos` alone, and stores the flattened texts
at `pos, pos+1, ...`. -/
lemma segLoop_full (lib : WhisperLib) (S : Nat) :
    ∀ (fuel i pos : Nat) (s : BufState),
      pos + (segTextsFrom lib fuel i).flatten.length + 1 < S →
      (segLoop lib S fuel i pos s).1 =
          pos + (segTextsFrom lib fuel i).flatten.length ∧
      (∀ j < pos, (segLoop lib S fuel i pos s).2.buf j = s.buf j) ∧
      (∀ k < (segTextsFrom lib fuel i).flatten.length,
        (segLoop lib S fuel i pos s).2.buf (pos + k) =
          (segTextsFrom lib fuel i).flatten.getD k 0) := by
  intro fuel
  induction fuel with
  | zero =>
    intro i pos s _
    exact ⟨by simp [segLoop, segTextsFrom], fun j _ => rfl,
      fun k hk => by simp [segTextsFrom] at hk⟩
  | succ n ih =>
    intro i pos s h
    cases hseg : lib.segText i with
    | none =>
      rw [segTextsFrom_succ_none n hseg] at h ⊢
      rw [segLoop_succ_none n pos s hseg]
      exact ih (i + 1) pos s h
    | some t =>
      rw [segTextsFrom_succ_some n hseg] at h ⊢
      rw [List.flatten_cons, List.length_append] at h ⊢
      have hg : pos + t.length + 1 < S := by omega
      rw [segLoop_succ_some_fit n pos s hseg hg]
      obtain ⟨ih1, ih2, ih3⟩ := ih (i + 1) (pos + t.length) (strcpy pos t s) (by omega)
      refine ⟨by omega, ?_, ?_⟩
      · intro j hj
        rw [ih2 j (by omega)]
        exact strcpy_buf_lt t pos s j hj
      · intro k hk
        by_cases hkt : k < t.length
        · rw [ih2 (pos + k) (by omega), strcpy_buf_mid t pos s (pos + k) (by omega) (by omega),
            List.getD_append t _ 0 k hkt]
          congr 1
          omega
        · have hk2 : k - t.length < (segTextsFrom lib n (i + 1)).flatten.length := by omega
          have := ih3 (k - t.length) hk2
          rw [show pos + t.length + (k - t.length) = pos + k by omega] at this
          rw [this, List.getD_append_right t _ 0 k (by omega)]

/-- When at least one non-NULL text exists but the whole concatenation does
not pass the loop's bound, the loop breaks at the first non-NULL segment
(relative index `d`) whose text fails the guard given the length of what was
copied before it.  Everything before segment `i + d` is copied whole, the
final `result_pos` is the length of that copied prefix, and the loop returns
0 iterations after the break. -/
lemma segLoop_trunc (lib : WhisperLib) (S : Nat) :
    ∀ (fuel i pos : Nat) (s : BufState),
      segTextsFrom lib fuel i ≠ [] →
      ¬ pos + (segTextsFrom lib fuel i).flatten.length + 1 < S →
      ∃ d t, d < fuel ∧ lib.segText (i + d) = some t ∧
        ¬ pos + (segTextsFrom lib d i).flatten.length + t.length + 1 < S ∧
        (∀ e < d, ∀ u, lib.segText (i + e) = some u →
          pos + (segTextsFrom lib e i).flatten.length + u.length + 1 < S) ∧
        (segLoop lib S fuel i pos s).1 =
          pos + (segTextsFrom lib d i).flatten.length ∧
        (∀ j < pos, (segLoop lib S fuel i pos s).2.buf j = s.buf j) ∧
        (∀ k < (segTextsFrom lib d i).flatten.length,
          (segLoop lib S fuel i pos s).2.buf (pos + k) =
            (segTextsFrom lib d i).flatten.getD k 0) := by
  intro fuel
  induction fuel with
  | zero => intro i pos s hne _; exact absurd rfl hne
  | succ n ih =>
    intro i pos s hne hnofit
    cases hseg : lib.segText i with
    | none =>
      rw [segTextsFrom_succ_none n hseg] at hne hnofit
      obtain ⟨d, t, hd, hsegd, hnofitd, hfirst, hpos, hblt, hcont⟩ :=
        ih (i + 1) pos s hne hnofit
      refine ⟨d + 1, t, by omega, ?_, ?_, ?_, ?_, ?_, ?_⟩
      · rw [show i + (d + 1) = (i + 1) + d by omega]; exact hsegd
      · rw [segTextsFrom_succ_none d hseg]; exact hnofitd
      · intro e he u hu
        match e with
        | 0 => rw [Nat.add_zero] at hu; rw [hseg] at hu; exact absurd hu (by simp)
        | e + 1 =>
          rw [segTextsFrom_succ_none e hseg]
          rw [show i + (e + 1) = (i + 1) + e by omega] at hu
          exact hfirst e (by omega) u hu
      · rw [segLoop_succ_none n pos s hseg, segTextsFrom_succ_none d hseg]
        exact hpos
      · rw [segLoop_succ_none n pos s hseg]; exact hblt
      · rw [segLoop_succ_none n pos s hseg, segTextsFrom_succ_none d hseg]
        exact hcont
    | some t0 =>
      rw [segTextsFrom_succ_some n hseg] at hne hnofit
      rw [List.flatten_cons, List.length_append] at hnofit
      by_cases hg : pos + t0.length + 1 < S
      · have hne2 : segTextsFrom lib n (i + 1) ≠ [] := by
          intro hemp
          rw [hemp] at hnofit
          simp at hnofit
          omega
        obtain ⟨d, t, hd, hsegd, hnofitd, hfirst, hpos, hblt, hcont⟩ :=
          ih (i + 1) (pos + t0.length) (strcpy pos t0 s) hne2 (by omega)
        refine ⟨d + 1, t, by omega, ?_, ?_, ?_, ?_, ?_, ?_⟩
        · rw [show i + (d + 1) = (i + 1) + d by omega]; exact hsegd
        · rw [segTextsFrom_succ_some d hseg, List.flatten_cons, List.length_append]
          omega
        · intro e he u hu
          match e with
          | 0 =>
            rw [Nat.add_zero] at hu; rw [hseg] at hu
            have : u = t0 := by injection hu with h; exact h.symm
            subst this
            simp [segTextsFrom]
            omega
          | e + 1 =>
            rw [segTextsFrom_succ_some e hseg, List.flatten_cons, List.length_append]
            rw [show i + (e + 1) = (i + 1) + e by omega] at hu
            have := hfirst e (by omega) u hu
            omega
        · rw [segLoop_succ_some_fit n pos s hseg hg,
            segTextsFrom_succ_some d hseg, List.flatten_cons, List.length_append]
          omega
        · intro j hj
          rw [segLoop_succ_some_fit n pos s hseg hg, hblt j (by omega)]
          exact strcpy_buf_lt t0 pos s j hj
        · intro k hk
          rw [segTextsFrom_succ_some d hseg, List.flatten_cons] at hk ⊢
          rw [List.length_append] at hk
          rw [segLoop_succ_some_fit n pos s hseg hg]
          by_cases hkt : k < t0.length
          · rw [hblt (pos + k) (by omega),
              strcpy_buf_mid t0 pos s (pos + k) (by omega) (by omega),
              List.getD_append t0 _ 0 k hkt]
            congr 1
            omega
          · have hk2 : k - t0.length < (segTextsFrom lib d (i + 1)).flatten.length := by
              omega
            have := hcont (k - t0.length) hk2
            rw [show pos + t0.length + (k - t0.length) = pos + k by omega] at this
            rw [this, List.getD_append_right t0 _ 0 k (by omega)]
      · refine ⟨0, t0, by omega, by rw [Nat.add_zero]; exact hseg, ?_, ?_, ?_, ?_, ?_⟩
        · simp [segTextsFrom]
          omega
        · intro e he; omega
        · rw [segLoop_succ_some_nofit n pos s hseg hg]
          simp [segTextsFrom]
        · intro j _
          rw [segLoop_succ_some_nofit n pos s hseg hg]
        · intro k hk
          simp [segTextsFrom] at hk

/-! ### Branch equations for `whisper_wrapper_full_transcribe` -/

lemma transcribe_invalid (lib : WhisperLib) (a : Args) (buf0 : Nat → Byte)
    (hv : (a.ctxNull || a.samplesNull || a.resultNull
      || decide (a.result_size ≤ 0)) = true) :
    whisper_wrapper_full_transcribe lib a buf0 = ⟨-1, none, buf0, []⟩ := by
  simp only [whisper_wrapper_full_transcribe, hv, if_true]

lemma transcribe_fullErr (lib : WhisperLib) (a : Args) (buf0 : Nat → Byte)
    (hv : (a.ctxNull || a.samplesNull || a.resultNull
      || decide (a.result_size ≤ 0)) = false)
    (hr : lib.fullRet ≠ 0) :
    whisper_wrapper_full_transcribe lib a buf0 =
      ⟨lib.fullRet, some (transcribe_wparams lib), buf0, []⟩ := by
  simp [whisper_wrapper_full_transcribe, hv, hr]

lemma transcribe_noSegs (lib : WhisperLib) (a : Args) (buf0 : Nat → Byte)
    (hv : (a.ctxNull || a.samplesNull || a.resultNull
      || decide (a.result_size ≤ 0)) = false)
    (hr : lib.fullRet = 0) (hn : lib.nSegments = 0) :
    whisper_wrapper_full_transcribe lib a buf0 =
      ⟨0, some (transcribe_wparams lib),
        (writeByte ⟨buf0, []⟩ 0 0).buf, (writeByte ⟨buf0, []⟩ 0 0).written⟩ := by
  simp [whisper_wrapper_full_transcribe, hv, hr, hn]

lemma transcribe_loop (lib : WhisperLib) (a : Args) (buf0 : Nat → Byte)
    (hv : (a.ctxNull || a.samplesNull || a.resultNull
      || decide (a.result_size ≤ 0)) = false)
    (hr : lib.fullRet = 0) (hn : lib.nSegments ≠ 0) :
    whisper_wrapper_full_transcribe lib a buf0 =
      ⟨0, some (transcribe_wparams lib),
        (writeByte
          (segLoop lib a.result_size.toNat lib.nSegments 0 0 ⟨buf0, []⟩).2
          (segLoop lib a.result_size.toNat lib.nSegments 0 0 ⟨buf0, []⟩).1 0).buf,
        (writeByte
          (segLoop lib a.result_size.toNat lib.nSegments 0 0 ⟨buf0, []⟩).2
          (segLoop lib a.result_size.toNat lib.nSegments 0 0 ⟨buf0, []⟩).1
          0).written⟩ := by
  simp [whisper_wrapper_full_transcribe, hv, hr, hn]

/-! ### Concrete library behaviours used to exercise the theorems -/

/-- An arbitrary record of default parameters for the oracles below. -/
def wparams0 : whisper_full_params :=
  ⟨.GREEDY, "", false, false, false, false, false, false, false, false, false,
    0, 0, 0, 0⟩

/-- Successful run with two short segments `"Hi"` and `"!"`. -/
def libTwoSegs : WhisperLib where
  default_full_params := fun _ => wparams0
  fullRet := 0
  nSegments := 2
  segText := fun i =>
    if i = 0 then some [72, 105] else if i = 1 then some [33] else none

/-- Failed `whisper_full` run (return code `-6`). -/
def libFail : WhisperLib where
  default_full_params := fun _ => wparams0
  fullRet := -6
  nSegments := 0
  segText := fun _ => none

/-- Successful run with the single 4-byte segment `"ABCD"`. -/
def libOneBig : WhisperLib where
  default_full_params := fun _ => wparams0
  fullRet := 0
  nSegments := 1
  segText := fun i => if i = 0 then some [65, 66, 67, 68] else none

/-- Successful run with segments `"ABCD"` and `"XYZ"`. -/
def libBigSmall : WhisperLib where
  default_full_params := fun _ => wparams0
  fullRet := 0
  nSegments := 2
  segText := fun i =>
    if i = 0 then some [65, 66, 67, 68]
    else if i = 1 then some [88, 89, 90] else none

/-- Successful run with segments `"Hi"` and `"World"`. -/
def libTrunc : WhisperLib where
  default_full_params := fun _ => wparams0
  fullRet := 0
  nSegments := 2
  segText := fun i =>
    if i = 0 then some [72, 105]
    else if i = 1 then some [87, 111, 114, 108, 100] else none

/-- Arguments with all pointers non-NULL and the given `result_size`. -/
def argsOK (size : Int) : Args := ⟨false, false, false, 160000, size⟩

/-- Arbitrary initial contents of the caller's buffer. -/
def buf0W : Nat → Byte := fun _ => 55

lemma libTwoSegs_wf : libStringsWF libTwoSegs := by
  intro i t h b hb
  unfold libTwoSegs at h
  dsimp only at h
  by_cases h0 : i = 0
  · rw [if_pos h0] at h
    injection h with h
    subst h
    fin_cases hb <;> decide
  · rw [if_neg h0] at h
    by_cases h1 : i = 1
    · rw [if_pos h1] at h
      injection h with h
      subst h
      fin_cases hb
      decide
    · rw [if_neg h1] at h
      exact absurd h (by simp)

lemma libTrunc_wf : libStringsWF libTrunc := by
  intro i t h b hb
  unfold libTrunc at h
  dsimp only at h
  by_cases h0 : i = 0
  · rw [if_pos h0] at h
    injection h with h
    subst h
    fin_cases hb <;> decide
  · rw [if_neg h0] at h
    by_cases h1 : i = 1
    · rw [if_pos h1] at h
      injection h with h
      subst h
      fin_cases hb <;> decide
    · rw [if_neg h1] at h
      exact absurd h (by simp)

/-! ### The claims -/

/-- C4: `whisper_wrapper_full_transcribe` returns `-1`, without invoking the
underlying library, whenever `ctx` is NULL, `samples` is NULL, `result` is
NULL, or `result_size ≤ 0`; for all other inputs the validation branch is not
taken and the call proceeds into the library. -/
theorem transcribe_validation_guard (lib : WhisperLib) (a : Args)
    (buf0 : Nat → Byte) :
    ((a.ctxNull = true ∨ a.samplesNull = true ∨ a.resultNull = true ∨
        a.result_size ≤ 0) →
      (whisper_wrapper_full_transcribe lib a buf0).ret = -1 ∧
      (whisper_wrapper_full_transcribe lib a buf0).invoked = none) ∧
    (¬ (a.ctxNull = true ∨ a.samplesNull = true ∨ a.resultNull = true ∨
        a.result_size ≤ 0) →
      (whisper_wrapper_full_transcribe lib a buf0).invoked =
        some (transcribe_wparams lib)) := by
  constructor
  · intro h
    have hv : (a.ctxNull || a.samplesNull || a.resultNull
        || decide (a.result_size ≤ 0)) = true := by
      rcases h with h | h | h | h <;> simp [h]
    rw [transcribe_invalid lib a buf0 hv]
    exact ⟨rfl, rfl⟩
  · intro h
    push_neg at h
    obtain ⟨h1, h2, h3, h4⟩ := h
    simp only [Bool.not_eq_true] at h1 h2 h3
    have hv : (a.ctxNull || a.samplesNull || a.resultNull
        || decide (a.result_size ≤ 0)) = false := by
      simp [h1, h2, h3, h4]
    by_cases hr : lib.fullRet = 0
    · by_cases hn : lib.nSegments = 0
      · rw [transcribe_noSegs lib a buf0 hv hr hn]
      · rw [transcribe_loop lib a buf0 hv hr hn]
    · rw [transcribe_fullErr lib a buf0 hv hr]

/-- C4 witness: with `ctx` NULL the wrapper returns `-1` and never reaches
`whisper_full`; with all arguments valid it does reach `whisper_full`. -/
theorem transcribe_validation_guard_witness :
    ((whisper_wrapper_full_transcribe libTwoSegs
        ⟨true, false, false, 160000, 10⟩ buf0W).ret = -1 ∧
      (whisper_wrapper_full_transcribe libTwoSegs
        ⟨true, false, false, 160000, 10⟩ buf0W).invoked = none) ∧
    (whisper_wrapper_full_transcribe libTwoSegs (argsOK 10) buf0W).invoked =
      some (transcribe_wparams libTwoSegs) :=
  ⟨(transcribe_validation_guard libTwoSegs ⟨true, false, false, 160000, 10⟩
      buf0W).1 (Or.inl rfl),
    (transcribe_validation_guard libTwoSegs (argsOK 10) buf0W).2 (by
      simp [argsOK])⟩

/-- C3: when the inputs pass validation the wrapper returns exactly the code
`whisper_full` returned whenever that code is nonzero, and returns 0 exactly
when `whisper_full` returned 0. -/
theorem transcribe_propagates_ret (lib : WhisperLib) (a : Args)
    (buf0 : Nat → Byte) (hval : argsValid a) :
    (lib.fullRet ≠ 0 →
      (whisper_wrapper_full_transcribe lib a buf0).ret = lib.fullRet) ∧
    ((whisper_wrapper_full_transcribe lib a buf0).ret = 0 ↔
      lib.fullRet = 0) := by
  obtain ⟨h1, h2, h3, h4⟩ := hval
  have hv : (a.ctxNull || a.samplesNull || a.resultNull
      || decide (a.result_size ≤ 0)) = false := by
    simp [h1, h2, h3]
    omega
  constructor
  · intro hr
    rw [transcribe_fullErr lib a buf0 hv hr]
  · constructor
    · intro h0
      by_contra hr
      rw [transcribe_fullErr lib a buf0 hv hr] at h0
      exact hr h0
    · intro hr
      by_cases hn : lib.nSegments = 0
      · rw [transcribe_noSegs lib a buf0 hv hr hn]
      · rw [transcribe_loop lib a buf0 hv hr hn]

/-- C3 witness: a failing `whisper_full` code `-6` is forwarded unchanged,
and a successful run returns 0. -/
theorem transcribe_propagates_ret_witness :
    (whisper_wrapper_full_transcribe libFail (argsOK 10) buf0W).ret = -6 ∧
    ((whisper_wrapper_full_transcribe libTwoSegs (argsOK 10) buf0W).ret = 0 ↔
      libTwoSegs.fullRet = 0) :=
  ⟨(transcribe_propagates_ret libFail (argsOK 10) buf0W
      ⟨rfl, rfl, rfl, by decide⟩).1 (by decide),
    (transcribe_propagates_ret libTwoSegs (argsOK 10) buf0W
      ⟨rfl, rfl, rfl, by decide⟩).2⟩

/-- C6: `whisper_wrapper_init_from_file` returns NULL exactly when the
library's init-from-file call returns NULL, and otherwise forwards the
context pointer produced by the library unchanged. -/
theorem init_forwards_ctx (lib : InitLib) :
    (whisper_wrapper_init_from_file lib = none ↔
      lib.initFromFile (init_cparams lib.defaultCParams) = none) ∧
    (∀ c, lib.initFromFile (init_cparams lib.defaultCParams) = some c →
      whisper_wrapper_init_from_file lib = some c) := by
  unfold whisper_wrapper_init_from_file
  cases h : lib.initFromFile (init_cparams lib.defaultCParams) with
  | none => simp
  | some c => simp

/-- C6 witness: a library that returns handle 7 is forwarded, one that
returns NULL yields NULL. -/
theorem init_forwards_ctx_witness :
    whisper_wrapper_init_from_file ⟨⟨false⟩, fun _ => some 7⟩ = some 7 ∧
    (whisper_wrapper_init_from_file ⟨⟨false⟩, fun _ => none⟩ = none ↔
      (none : Option Nat) = none) :=
  ⟨(init_forwards_ctx ⟨⟨false⟩, fun _ => some 7⟩).2 7 rfl,
    (init_forwards_ctx ⟨⟨false⟩, fun _ => none⟩).1⟩

/-- C5: on every call of `whisper_wrapper_full_transcribe` the parameters
handed to `whisper_full` are the same fixed configuration regardless of the
audio input: greedy sampling (given that the library's default-params call
returns the strategy it was asked for), language `"en"`, `translate` false,
`no_context` true, `single_segment` false, `suppress_blank` true,
`suppress_nst` true, temperature `0.0`, `max_initial_ts` `1.0`,
`length_penalty` `-1.0`, and `n_threads` 4; and
`whisper_wrapper_init_from_file` always passes context parameters with
`use_gpu` set, whatever the library's defaults were. -/
theorem transcribe_fixed_config (lib : WhisperLib) (d : whisper_context_params)
    (hG : (lib.default_full_params .GREEDY).strategy = .GREEDY) :
    (transcribe_wparams lib).strategy = .GREEDY ∧
    (transcribe_wparams lib).language = "en" ∧
    (transcribe_wparams lib).translate = false ∧
    (transcribe_wparams lib).no_context = true ∧
    (transcribe_wparams lib).single_segment = false ∧
    (transcribe_wparams lib).suppress_blank = true ∧
    (transcribe_wparams lib).suppress_nst = true ∧
    (transcribe_wparams lib).temperature = 0 ∧
    (transcribe_wparams lib).max_initial_ts = 1 ∧
    (transcribe_wparams lib).length_penalty = -1 ∧
    (transcribe_wparams lib).n_threads = 4 ∧
    (∀ (a : Args) (buf0 : Nat → Byte),
      (whisper_wrapper_full_transcribe lib a buf0).invoked = none ∨
      (whisper_wrapper_full_transcribe lib a buf0).invoked =
        some (transcribe_wparams lib)) ∧
    (init_cparams d).use_gpu = true := by
  refine ⟨hG, rfl, rfl, rfl, rfl, rfl, rfl, rfl, rfl, rfl, by norm_num [transcribe_wparams],
    ?_, rfl⟩
  intro a buf0
  by_cases hv : (a.ctxNull || a.samplesNull || a.resultNull
      || decide (a.result_size ≤ 0)) = true
  · rw [transcribe_invalid lib a buf0 hv]
    exact Or.inl rfl
  · rw [Bool.not_eq_true] at hv
    by_cases hr : lib.fullRet = 0
    · by_cases hn : lib.nSegments = 0
      · rw [transcribe_noSegs lib a buf0 hv hr hn]
        exact Or.inr rfl
      · rw [transcribe_loop lib a buf0 hv hr hn]
        exact Or.inr rfl
    · rw [transcribe_fullErr lib a buf0 hv hr]
      exact Or.inr rfl

/-- C5 witness: the fixed configuration at a concrete library behaviour. -/
theorem transcribe_fixed_config_witness :
    (transcribe_wparams libTwoSegs).strategy = .GREEDY ∧
    (transcribe_wparams libTwoSegs).language = "en" ∧
    (transcribe_wparams libTwoSegs).translate = false ∧
    (transcribe_wparams libTwoSegs).no_context = true ∧
    (transcribe_wparams libTwoSegs).single_segment = false ∧
    (transcribe_wparams libTwoSegs).suppress_blank = true ∧
    (transcribe_wparams libTwoSegs).suppress_nst = true ∧
    (transcribe_wparams libTwoSegs).temperature = 0 ∧
    (transcribe_wparams libTwoSegs).max_initial_ts = 1 ∧
    (transcribe_wparams libTwoSegs).length_penalty = -1 ∧
    (transcribe_wparams libTwoSegs).n_threads = 4 ∧
    (∀ (a : Args) (buf0 : Nat → Byte),
      (whisper_wrapper_full_transcribe libTwoSegs a buf0).invoked = none ∨
      (whisper_wrapper_full_transcribe libTwoSegs a buf0).invoked =
        some (transcribe_wparams libTwoSegs)) ∧
    (init_cparams ⟨false⟩).use_gpu = true :=
  transcribe_fixed_config libTwoSegs ⟨false⟩ rfl

/-- C1: with `result` non-NULL and `result_size > 0`, every byte the wrapper
stores into `result` is at an index strictly below `result_size`, and on
every return of 0 the buffer holds a null-terminated string of length at
most `result_size - 1`: a NUL at some index `n` with `n + 1 ≤ result_size`,
every byte before it nonzero. -/
theorem transcribe_writes_in_bounds (lib : WhisperLib) (a : Args)
    (buf0 : Nat → Byte) (_hres : a.resultNull = false)
    (hsize : 0 < a.result_size) (hwf : libStringsWF lib) :
    (∀ j ∈ (whisper_wrapper_full_transcribe lib a buf0).written,
      (j : Int) < a.result_size) ∧
    ((whisper_wrapper_full_transcribe lib a buf0).ret = 0 →
      ∃ n : Nat, (n : Int) + 1 ≤ a.result_size ∧
        (whisper_wrapper_full_transcribe lib a buf0).buf n = 0 ∧
        ∀ j < n, (whisper_wrapper_full_transcribe lib a buf0).buf j ≠ 0) := by
  have hS : 0 < a.result_size.toNat := by omega
  by_cases hv : (a.ctxNull || a.samplesNull || a.resultNull
      || decide (a.result_size ≤ 0)) = true
  · rw [transcribe_invalid lib a buf0 hv]
    exact ⟨by simp, fun h => absurd (show (-1 : Int) = 0 from h) (by decide)⟩
  · rw [Bool.not_eq_true] at hv
    by_cases hr : lib.fullRet = 0
    · by_cases hn : lib.nSegments = 0
      · rw [transcribe_noSegs lib a buf0 hv hr hn]
        constructor
        · intro j hj
          simp [writeByte] at hj
          omega
        · intro _
          refine ⟨0, by omega, by simp [writeByte], ?_⟩
          intro j hj
          omega
      · rw [transcribe_loop lib a buf0 hv hr hn]
        dsimp only
        have hp : (segLoop lib a.result_size.toNat lib.nSegments 0 0
            ⟨buf0, []⟩).1 < a.result_size.toNat :=
          segLoop_pos_lt lib a.result_size.toNat lib.nSegments 0 0 ⟨buf0, []⟩ hS
        constructor
        · intro j hj
          rw [writeByte_written] at hj
          rcases List.mem_append.mp hj with h | h
          · rcases segLoop_written lib a.result_size.toNat lib.nSegments 0 0
                ⟨buf0, []⟩ j h with h | h
            · simp at h
            · omega
          · simp at h
            omega
        · intro _
          refine ⟨(segLoop lib a.result_size.toNat lib.nSegments 0 0
              ⟨buf0, []⟩).1, by omega, by rw [writeByte_buf, if_pos rfl], ?_⟩
          intro j hj
          rw [writeByte_buf, if_neg (Nat.ne_of_lt hj)]
          exact segLoop_nonzero lib a.result_size.toNat hwf lib.nSegments 0 0
            ⟨buf0, []⟩ j (Nat.zero_le j) hj
    · rw [transcribe_fullErr lib a buf0 hv hr]
      exact ⟨by simp, fun h => absurd (show lib.fullRet = 0 from h) hr⟩

/-- C1 witness: on a concrete successful two-segment run with a 10-byte
buffer, all stores are in bounds and the result is a null-terminated string
shorter than the buffer. -/
theorem transcribe_writes_in_bounds_witness :
    (∀ j ∈ (whisper_wrapper_full_transcribe libTwoSegs (argsOK 10) buf0W).written,
      (j : Int) < 10) ∧
    ((whisper_wrapper_full_transcribe libTwoSegs (argsOK 10) buf0W).ret = 0 →
      ∃ n : Nat, (n : Int) + 1 ≤ 10 ∧
        (whisper_wrapper_full_transcribe libTwoSegs (argsOK 10) buf0W).buf n = 0 ∧
        ∀ j < n,
          (whisper_wrapper_full_transcribe libTwoSegs (argsOK 10) buf0W).buf j ≠ 0) :=
  transcribe_writes_in_bounds libTwoSegs (argsOK 10) buf0W rfl (by decide)
    libTwoSegs_wf

/-- C2 (amended): when validation passes, `whisper_full` succeeds and the
total length of the non-NULL segment texts passes the loop's strict bound
(`total + 1 < result_size`), the wrapper returns 0 and `result` holds exactly
the concatenation of the non-NULL segment texts in ascending segment order,
null-terminated; in particular with zero segments `result` becomes the empty
string and 0 is returned. -/
theorem transcribe_concat_all (lib : WhisperLib) (a : Args)
    (buf0 : Nat → Byte) (hval : argsValid a) (hr : lib.fullRet = 0)
    (hfit : (segTexts lib lib.nSegments).flatten.length + 1 <
      a.result_size.toNat) :
    (whisper_wrapper_full_transcribe lib a buf0).ret = 0 ∧
    (∀ k < (segTexts lib lib.nSegments).flatten.length,
      (whisper_wrapper_full_transcribe lib a buf0).buf k =
        (segTexts lib lib.nSegments).flatten.getD k 0) ∧
    (whisper_wrapper_full_transcribe lib a buf0).buf
      (segTexts lib lib.nSegments).flatten.length = 0 := by
  obtain ⟨h1, h2, h3, h4⟩ := hval
  have hv : (a.ctxNull || a.samplesNull || a.resultNull
      || decide (a.result_size ≤ 0)) = false := by
    simp [h1, h2, h3]
    omega
  by_cases hn : lib.nSegments = 0
  · have hempty : segTexts lib lib.nSegments = [] := by rw [hn]; rfl
    rw [transcribe_noSegs lib a buf0 hv hr hn, hempty]
    dsimp only
    refine ⟨rfl, ?_, ?_⟩
    · intro k hk
      simp at hk
    · simp [writeByte]
  · rw [transcribe_loop lib a buf0 hv hr hn]
    dsimp only
    unfold segTexts at hfit ⊢
    obtain ⟨hpos, _, hcont⟩ :=
      segLoop_full lib a.result_size.toNat lib.nSegments 0 0 ⟨buf0, []⟩
        (by omega)
    rw [Nat.zero_add] at hpos
    refine ⟨rfl, ?_, ?_⟩
    · intro k hk
      rw [writeByte_buf, if_neg (by omega)]
      have := hcont k hk
      rwa [Nat.zero_add] at this
    · rw [writeByte_buf, if_pos hpos.symm]

/-- C2 witness: two short segments `"Hi"` `"!"` in a 10-byte buffer give
return 0 and the buffer contents `"Hi!"` null-terminated. -/
theorem transcribe_concat_all_witness :
    (whisper_wrapper_full_transcribe libTwoSegs (argsOK 10) buf0W).ret = 0 ∧
    (∀ k < (segTexts libTwoSegs libTwoSegs.nSegments).flatten.length,
      (whisper_wrapper_full_transcribe libTwoSegs (argsOK 10) buf0W).buf k =
        (segTexts libTwoSegs libTwoSegs.nSegments).flatten.getD k 0) ∧
    (whisper_wrapper_full_transcribe libTwoSegs (argsOK 10) buf0W).buf
      (segTexts libTwoSegs libTwoSegs.nSegments).flatten.length = 0 :=
  transcribe_concat_all libTwoSegs (argsOK 10) buf0W
    ⟨rfl, rfl, rfl, by decide⟩ rfl (by decide)

/-- C2 counterexample: one segment `"ABCD"` (4 bytes) with `result_size = 5`.
The total segment text fits within `result_size` — even together with its
terminator — and `whisper_full` succeeded, yet the wrapper copies nothing:
it returns 0 with `result` the empty string instead of `"ABCD"`. -/
theorem transcribe_concat_counterexample :
    argsValid (argsOK 5) ∧
    libOneBig.fullRet = 0 ∧
    (segTexts libOneBig libOneBig.nSegments).flatten.length ≤ 5 ∧
    (segTexts libOneBig libOneBig.nSegments).flatten.length + 1 ≤ 5 ∧
    (whisper_wrapper_full_transcribe libOneBig (argsOK 5) buf0W).ret = 0 ∧
    ¬ (∀ k < (segTexts libOneBig libOneBig.nSegments).flatten.length,
      (whisper_wrapper_full_transcribe libOneBig (argsOK 5) buf0W).buf k =
        (segTexts libOneBig libOneBig.nSegments).flatten.getD k 0) := by
  decide

/-- C7 (amended): when validation passes, `whisper_full` succeeds, at least
one segment text is non-NULL and the concatenated texts fail the loop's
strict bound (`total + 1 < result_size`), the wrapper truncates silently at a
whole-segment boundary: there is a first segment `k` (below the segment
count) whose non-NULL text fails the guard
`copied + text_len + 1 < result_size`, every non-NULL segment before `k`
passed its guard and was copied whole, `result` holds the null-terminated
concatenation of the non-NULL texts of segments `0..k-1` (never a partial
segment), and the wrapper still returns 0. -/
theorem transcribe_truncates_whole_segments (lib : WhisperLib) (a : Args)
    (buf0 : Nat → Byte) (hval : argsValid a) (hr : lib.fullRet = 0)
    (hne : segTexts lib lib.nSegments ≠ [])
    (hnofit : ¬ (segTexts lib lib.nSegments).flatten.length + 1 <
      a.result_size.toNat) :
    ∃ k t, k < lib.nSegments ∧ lib.segText k = some t ∧
      ¬ (segTexts lib k).flatten.length + t.length + 1 <
        a.result_size.toNat ∧
      (∀ e < k, ∀ u, lib.segText e = some u →
        (segTexts lib e).flatten.length + u.length + 1 <
          a.result_size.toNat) ∧
      (whisper_wrapper_full_transcribe lib a buf0).ret = 0 ∧
      (∀ m < (segTexts lib k).flatten.length,
        (whisper_wrapper_full_transcribe lib a buf0).buf m =
          (segTexts lib k).flatten.getD m 0) ∧
      (whisper_wrapper_full_transcribe lib a buf0).buf
        (segTexts lib k).flatten.length = 0 := by
  obtain ⟨h1, h2, h3, h4⟩ := hval
  have hv : (a.ctxNull || a.samplesNull || a.resultNull
      || decide (a.result_size ≤ 0)) = false := by
    simp [h1, h2, h3]
    omega
  have hn : lib.nSegments ≠ 0 := by
    intro h0
    apply hne
    rw [h0]
    rfl
  rw [transcribe_loop lib a buf0 hv hr hn]
  dsimp only
  unfold segTexts at hne hnofit ⊢
  obtain ⟨d, t, hd, hsegd, hnofitd, hfirst, hpos, _, hcont⟩ :=
    segLoop_trunc lib a.result_size.toNat lib.nSegments 0 0 ⟨buf0, []⟩ hne
      (by omega)
  rw [Nat.zero_add] at hsegd hpos
  refine ⟨d, t, hd, hsegd, by omega, ?_, rfl, ?_, ?_⟩
  · intro e he u hu
    have := hfirst e he u (by rwa [Nat.zero_add])
    omega
  · intro m hm
    rw [writeByte_buf, if_neg (by omega)]
    have := hcont m hm
    rwa [Nat.zero_add] at this
  · rw [writeByte_buf, if_pos hpos.symm]

/-- C7 witness: segments `"Hi"` and `"World"` with `result_size = 5`:
`"Hi"` is copied whole, `"World"` is dropped whole, the result is the
null-terminated `"Hi"` and the return value is 0. -/
theorem transcribe_truncates_whole_segments_witness :
    ∃ k t, k < libTrunc.nSegments ∧ libTrunc.segText k = some t ∧
      ¬ (segTexts libTrunc k).flatten.length + t.length + 1 <
        (argsOK 5).result_size.toNat ∧
      (∀ e < k, ∀ u, libTrunc.segText e = some u →
        (segTexts libTrunc e).flatten.length + u.length + 1 <
          (argsOK 5).result_size.toNat) ∧
      (whisper_wrapper_full_transcribe libTrunc (argsOK 5) buf0W).ret = 0 ∧
      (∀ m < (segTexts libTrunc k).flatten.length,
        (whisper_wrapper_full_transcribe libTrunc (argsOK 5) buf0W).buf m =
          (segTexts libTrunc k).flatten.getD m 0) ∧
      (whisper_wrapper_full_transcribe libTrunc (argsOK 5) buf0W).buf
        (segTexts libTrunc k).flatten.length = 0 :=
  transcribe_truncates_whole_segments libTrunc (argsOK 5) buf0W
    ⟨rfl, rfl, rfl, by decide⟩ rfl (by decide) (by decide)

/-- Formalisation of the claim's reading of "would fit" for C7's
counterexample: the text of segment `j` plus its terminator fits in the space
the buffer of size `S` leaves after the texts copied before segment `j`
(`true` also when the segment text is NULL). -/
def claimFits (lib : WhisperLib) (S j : Nat) : Bool :=
  match lib.segText j with
  | none => true
  | some u => decide ((segTexts lib j).flatten.length + u.length + 1 ≤ S)

/-- C7 counterexample: segments `"ABCD"` and `"XYZ"` with `result_size = 5`.
The concatenated texts do not all fit, so the claim applies; it says the
wrapper stops at the first segment whose text (plus terminator) would not
fit — that is segment 1, since `"ABCD"` plus terminator fits a 5-byte buffer
exactly — leaving `result` holding `"ABCD"`.  The code instead breaks already
at segment 0 (its guard demands a strictly spare byte) and leaves `result`
empty: no segment index satisfies the claim's description. -/
theorem transcribe_truncates_counterexample :
    libBigSmall.fullRet = 0 ∧
    argsValid (argsOK 5) ∧
    ¬ (segTexts libBigSmall libBigSmall.nSegments).flatten.length + 1 ≤ 5 ∧
    (whisper_wrapper_full_transcribe libBigSmall (argsOK 5) buf0W).ret = 0 ∧
    (∀ k < libBigSmall.nSegments,
      ¬ ((∀ j < k, claimFits libBigSmall 5 j = true) ∧
        claimFits libBigSmall 5 k = false ∧
        (∀ m < (segTexts libBigSmall k).flatten.length,
          (whisper_wrapper_full_transcribe libBigSmall (argsOK 5) buf0W).buf m =
            (segTexts libBigSmall k).flatten.getD m 0) ∧
        (whisper_wrapper_full_transcribe libBigSmall (argsOK 5) buf0W).buf
          (segTexts libBigSmall k).flatten.length = 0)) := by
  decide

end WhisperWrapper
